import Mathlib

/-!
Verification development for the van price-list summary generator
(generate_summary.py).  The Python functions are shallowly embedded as
computable Lean functions on character lists; each section cites the
function it models.  Machine strings are modelled as List Char, regular
expression searches as explicit scanning functions whose backtracking
order mirrors the re module (leftmost match, greedy quantifiers,
alternations tried left to right).
-/

namespace Van

/-- ASCII whitespace class of the re module escape \s, used by the
date, price and variant patterns in generate_summary.py. -/
def pyIsSpace (c : Char) : Bool :=
  c = ' ' || c = '\t' || c = '\n' || c = '\r' || c = '\x0b' || c = '\x0c'

/-- Python str.upper restricted to ASCII, as applied to basenames. -/
def upperL (s : List Char) : List Char := s.map Char.toUpper

/-- Python str.lower restricted to ASCII. -/
def lowerL (s : List Char) : List Char := s.map Char.toLower

/-- The Python substring test (tok in s) on character lists. -/
def containsSub (tok : List Char) : List Char → Bool
  | [] => tok.isEmpty
  | c :: cs => tok.isPrefixOf (c :: cs) || containsSub tok cs

/-- pathlib Path name: the component after the last slash. -/
def pathName (f : List Char) : List Char :=
  (f.reverse.takeWhile (fun c => c ≠ '/')).reverse

/-- pathlib Path stem: the name with its last extension removed; a dot
at the very start or very end of the name is not an extension marker. -/
def stem (f : List Char) : List Char :=
  let n := pathName f
  let r := n.reverse
  let suf := r.takeWhile (fun c => c ≠ '.')
  if suf.length = r.length then n
  else if suf.isEmpty then n
  else
    let rest := r.drop (suf.length + 1)
    if rest.isEmpty then n else rest.reverse

/-- re.sub removing one trailing duplicate marker, pattern
\s* \( \d+ \) \s* anchored at the end of the string
(generate_summary.py line 118). -/
def stripDupMarker (s : List Char) : List Char :=
  let r := s.reverse
  let r1 := r.dropWhile pyIsSpace
  match r1 with
  | ')' :: r2 =>
    let ds := r2.takeWhile Char.isDigit
    if ds.isEmpty then s
    else
      match r2.drop ds.length with
      | '(' :: r3 => (r3.dropWhile pyIsSpace).reverse
      | _ => s
  | _ => s

/-- Consume exactly n digit characters, returning them with the rest. -/
def takeDigits : Nat → List Char → Option (List Char × List Char)
  | 0, cs => some ([], cs)
  | _ + 1, [] => none
  | n + 1, c :: cs =>
    if c.isDigit then (takeDigits n cs).map (fun p => (c :: p.1, p.2)) else none

/-- Consume one expected character. -/
def expectCh (ch : Char) : List Char → Option (List Char)
  | [] => none
  | c :: cs => if c = ch then some cs else none

/-- Month and year part of the dotted date pattern
(\d{1,2}) \. (\d{4}): the {1,2} quantifier is greedy, so the
two-digit month is tried before the one-digit month. -/
def dottedMY (cs : List Char) : Option (List Char × List Char) :=
  ((takeDigits 2 cs).bind fun p =>
    (expectCh '.' p.2).bind fun r2 =>
      (takeDigits 4 r2).map fun q => (p.1, q.1)) <|>
  ((takeDigits 1 cs).bind fun p =>
    (expectCh '.' p.2).bind fun r2 =>
      (takeDigits 4 r2).map fun q => (p.1, q.1))

/-- Anchored match of the dotted date pattern
(\d{1,2})\.(\d{1,2})\.(\d{4}) from generate_summary.py line 155,
returning (day, month, year); the greedy two-digit day is tried first. -/
def dottedAt (cs : List Char) : Option (List Char × List Char × List Char) :=
  ((takeDigits 2 cs).bind fun p =>
    (expectCh '.' p.2).bind fun r2 =>
      (dottedMY r2).map fun q => (p.1, q.1, q.2)) <|>
  ((takeDigits 1 cs).bind fun p =>
    (expectCh '.' p.2).bind fun r2 =>
      (dottedMY r2).map fun q => (p.1, q.1, q.2))

/-- re.search for the dotted date pattern: leftmost anchored match. -/
def dottedSearch : List Char → Option (List Char × List Char × List Char)
  | [] => none
  | c :: cs => dottedAt (c :: cs) <|> dottedSearch cs

/-- Anchored match of the undelimited pattern (\d{2})(\d{2})(\d{4})
from generate_summary.py line 161, returning (day, month, year). -/
def eightAt (cs : List Char) : Option (List Char × List Char × List Char) :=
  (takeDigits 2 cs).bind fun p =>
    (takeDigits 2 p.2).bind fun q =>
      (takeDigits 4 q.2).map fun w => (p.1, q.1, w.1)

/-- re.search for the undelimited eight-digit date pattern. -/
def ddmmSearch : List Char → Option (List Char × List Char × List Char)
  | [] => none
  | c :: cs => eightAt (c :: cs) <|> ddmmSearch cs

/-- Anchored match of MJ(\d{4}) with re.IGNORECASE
(generate_summary.py line 149). -/
def mjAt : List Char → Option (List Char)
  | c1 :: c2 :: r =>
    if c1.toUpper = 'M' && c2.toUpper = 'J' then (takeDigits 4 r).map (fun p => p.1)
    else none
  | _ => none

/-- re.search for the model-year pattern MJ(\d{4}). -/
def mjSearch : List Char → Option (List Char)
  | [] => none
  | c :: cs => mjAt (c :: cs) <|> mjSearch cs

/-- Python str.zfill(2): pad on the left with zeros to width two. -/
def zfill2 (s : List Char) : List Char :=
  if s.length ≥ 2 then s else List.replicate (2 - s.length) '0' ++ s

/-- Validity date detection of the Volkswagen branch
(generate_summary.py lines 153-164): the dotted D.M.YYYY / DD.MM.YYYY
pattern is tried first and rendered as YYYY-MM-DD with day and month
zero-filled; only when it is absent is the undelimited DDMMYYYY run
tried, rendered without refilling. -/
def vwValidityDate (b : List Char) : Option (List Char) :=
  match dottedSearch b with
  | some (d, m, y) => some (y ++ '-' :: (zfill2 m ++ '-' :: zfill2 d))
  | none =>
    match ddmmSearch b with
    | some (d, m, y) => some (y ++ '-' :: (m ++ '-' :: d))
    | none => none

/-- The metadata dictionary produced by parse_filename. -/
structure Metadata where
  filename : List Char
  basename : List Char
  make : String
  model : List Char
  validity_date : Option (List Char)
  model_year : Option (List Char)
  variant : Option (List Char)
deriving DecidableEq

/-- Keyword test of the Volkswagen branch (generate_summary.py line 131). -/
def vwTrigger (u : List Char) : Bool :=
  containsSub "CALIFORNIA".data u || containsSub "CARAVELLE".data u ||
  containsSub "MULTIVAN".data u || containsSub "TRANSPORTER".data u ||
  containsSub "MT7".data u || containsSub "CT7".data u

/-- Model selection inside the Volkswagen branch
(generate_summary.py lines 135-142); if no sub-case matches, the model
field keeps the basename it was initialised with. -/
def vwModel (u b : List Char) : List Char :=
  if containsSub "CALIFORNIA".data u || containsSub "CT7".data u then "California".data
  else if containsSub "CARAVELLE".data u then "Caravelle".data
  else if containsSub "MULTIVAN".data u || containsSub "MT7".data u then "Multivan".data
  else if containsSub "TRANSPORTER".data u then "Transporter".data
  else b

/-- Model selection inside the Opel branch (generate_summary.py lines 175-183). -/
def opelModel (u b : List Char) : List Char :=
  if containsSub "VIVARO".data u then
    if containsSub "VAN".data u then "Vivaro Van".data
    else if containsSub "COMBI".data u then "Vivaro Combi".data
    else "Vivaro".data
  else if containsSub "ZAFIRA".data u then "Zafira Life".data
  else b

/-- Model selection inside the Peugeot branch (generate_summary.py lines 189-194). -/
def peugeotModel (u : List Char) : List Char :=
  if containsSub "COMBI".data u || containsSub "TRAVELLER".data u then
    "Expert Combi/Traveller".data
  else if containsSub "FURGON".data u then "Expert Furgon".data
  else "Expert".data

/-- Model selection inside the Toyota branch (generate_summary.py lines 200-206). -/
def toyotaModel (u : List Char) : List Char :=
  if containsSub "VERSO".data u then
    if containsSub "EV".data u then "ProAce Verso EV".data else "ProAce Verso".data
  else "ProAce".data

/-- The basename computed by parse_filename: path stem with one
trailing duplicate marker stripped. -/
def basenameOf (filename : List Char) : List Char :=
  stripDupMarker (stem filename)

/-- Shallow embedding of parse_filename (generate_summary.py lines
110-218): an ordered cascade of case-insensitive substring tests with
first-match-wins semantics; only the Volkswagen branch extracts
variant, model year and validity date. -/
def parse_filename (filename : List Char) : Metadata :=
  let basename := basenameOf filename
  let u := upperL basename
  if vwTrigger u then
    ⟨filename, basename, "Volkswagen", vwModel u basename,
      vwValidityDate basename, mjSearch basename,
      if containsSub "T7".data u then some "T7".data else none⟩
  else if containsSub "FORD".data u || containsSub "TRANSIT".data u then
    ⟨filename, basename, "Ford", "Transit Custom".data, none, none, none⟩
  else if containsSub "VIVARO".data u || containsSub "ZAFIRA".data u then
    ⟨filename, basename, "Opel", opelModel u basename, none, none, none⟩
  else if containsSub "EXPERT".data u then
    ⟨filename, basename, "Peugeot", peugeotModel u, none, none, none⟩
  else if containsSub "PROACE".data u then
    ⟨filename, basename, "Toyota", toyotaModel u, none, none, none⟩
  else if containsSub "SPACE".data u && containsSub "TOURER".data u then
    ⟨filename, basename, "Citroën", "SpaceTourer".data, none, none, none⟩
  else if "citroen".data.isPrefixOf (lowerL basename) then
    ⟨filename, basename, "Citroën", "SpaceTourer".data, none, none, none⟩
  else
    ⟨filename, basename, "Unknown", basename, none, none, none⟩

/-! Make cascade as worded by the specification: an ordered rule table
with first-match-wins semantics, used to compare against the branch
order of parse_filename. -/

/-- Rule table of the make cascade, in the order stated by the spec:
Volkswagen > Ford > Opel > Peugeot > Toyota > Citroën-SpaceTourer >
Citroën-prefix. -/
def makeRules (b : List Char) : List (Bool × String) :=
  let u := upperL b
  [(vwTrigger u, "Volkswagen"),
   (containsSub "FORD".data u || containsSub "TRANSIT".data u, "Ford"),
   (containsSub "VIVARO".data u || containsSub "ZAFIRA".data u, "Opel"),
   (containsSub "EXPERT".data u, "Peugeot"),
   (containsSub "PROACE".data u, "Toyota"),
   (containsSub "SPACE".data u && containsSub "TOURER".data u, "Citroën"),
   ("citroen".data.isPrefixOf (lowerL b), "Citroën")]

/-- First-match-wins evaluation of a rule table; no rule matches gives
the Unknown make. -/
def firstMatch : List (Bool × String) → String
  | [] => "Unknown"
  | (c, mk) :: rest => if c then mk else firstMatch rest

/-- The make assigned by the spec-side cascade. -/
def specCascadeMake (b : List Char) : String := firstMatch (makeRules b)

/-! Basic facts about the scanners. -/

theorem orElse_eq_some_iff {α : Type} (a b : Option α) (v : α) :
    (a <|> b) = some v ↔ a = some v ∨ (a = none ∧ b = some v) := by
  cases a <;> simp

theorem takeDigits_spec :
    ∀ (n : Nat) (cs ds r : List Char), takeDigits n cs = some (ds, r) →
      ds.length = n ∧ (∀ c ∈ ds, c.isDigit = true) ∧ ds ++ r = cs := by
  intro n
  induction n with
  | zero =>
    intro cs ds r h
    simp [takeDigits] at h
    simp [h.1, h.2]
  | succ n ih =>
    intro cs ds r h
    match cs with
    | [] => simp [takeDigits] at h
    | c :: cs =>
      simp only [takeDigits] at h
      by_cases hc : c.isDigit
      · rw [if_pos hc, Option.map_eq_some'] at h
        obtain ⟨⟨ds1, r1⟩, h1, h2⟩ := h
        obtain ⟨hl, hd, he⟩ := ih cs ds1 r1 h1
        simp only [Prod.mk.injEq] at h2
        obtain ⟨rfl, rfl⟩ := h2
        refine ⟨by simp [hl], ?_, by simp [he]⟩
        intro x hx
        rcases List.mem_cons.mp hx with rfl | hx
        · exact hc
        · exact hd x hx
      · rw [if_neg hc] at h; exact absurd h (by simp)

theorem dottedMY_shape {cs m y : List Char} (h : dottedMY cs = some (m, y)) :
    (m.length = 1 ∨ m.length = 2) ∧ y.length = 4 ∧
      (∀ c ∈ m, c.isDigit = true) ∧ (∀ c ∈ y, c.isDigit = true) := by
  unfold dottedMY at h
  rw [orElse_eq_some_iff] at h
  have main : ∀ (k : Nat), ((takeDigits k cs).bind fun p =>
      (expectCh '.' p.2).bind fun r2 =>
        (takeDigits 4 r2).map fun q => (p.1, q.1)) = some (m, y) →
      m.length = k ∧ y.length = 4 ∧
        (∀ c ∈ m, c.isDigit = true) ∧ (∀ c ∈ y, c.isDigit = true) := by
    intro k hk
    rw [Option.bind_eq_some] at hk
    obtain ⟨⟨m1, r1⟩, h1, hk⟩ := hk
    rw [Option.bind_eq_some] at hk
    obtain ⟨r2, h2, hk⟩ := hk
    rw [Option.map_eq_some'] at hk
    obtain ⟨⟨y1, r3⟩, h3, h4⟩ := hk
    obtain ⟨hm1, hm2, -⟩ := takeDigits_spec k cs m1 r1 h1
    obtain ⟨hy1, hy2, -⟩ := takeDigits_spec 4 r2 y1 r3 h3
    cases h4
    exact ⟨hm1, hy1, hm2, hy2⟩
  rcases h with h | ⟨-, h⟩
  · obtain ⟨a, b, c, d⟩ := main 2 h
    exact ⟨Or.inr a, b, c, d⟩
  · obtain ⟨a, b, c, d⟩ := main 1 h
    exact ⟨Or.inl a, b, c, d⟩

theorem dottedAt_shape {cs d m y : List Char}
    (h : dottedAt cs = some (d, m, y)) :
    (d.length = 1 ∨ d.length = 2) ∧ (m.length = 1 ∨ m.length = 2) ∧
      y.length = 4 ∧ (∀ c ∈ d, c.isDigit = true) ∧
      (∀ c ∈ m, c.isDigit = true) ∧ (∀ c ∈ y, c.isDigit = true) := by
  unfold dottedAt at h
  rw [orElse_eq_some_iff] at h
  have main : ∀ (k : Nat), ((takeDigits k cs).bind fun p =>
      (expectCh '.' p.2).bind fun r2 =>
        (dottedMY r2).map fun q => (p.1, q.1, q.2)) = some (d, m, y) →
      d.length = k ∧ (m.length = 1 ∨ m.length = 2) ∧ y.length = 4 ∧
        (∀ c ∈ d, c.isDigit = true) ∧ (∀ c ∈ m, c.isDigit = true) ∧
        (∀ c ∈ y, c.isDigit = true) := by
    intro k hk
    rw [Option.bind_eq_some] at hk
    obtain ⟨⟨d1, r1⟩, h1, hk⟩ := hk
    rw [Option.bind_eq_some] at hk
    obtain ⟨r2, h2, hk⟩ := hk
    rw [Option.map_eq_some'] at hk
    obtain ⟨⟨m1, y1⟩, h3, h4⟩ := hk
    obtain ⟨hd1, hd2, -⟩ := takeDigits_spec k cs d1 r1 h1
    obtain ⟨hma, hmb, hmc, hmd⟩ := dottedMY_shape h3
    cases h4
    exact ⟨hd1, hma, hmb, hd2, hmc, hmd⟩
  rcases h with h | ⟨-, h⟩
  · obtain ⟨a, b, c, d1, e, f1⟩ := main 2 h
    exact ⟨Or.inr a, b, c, d1, e, f1⟩
  · obtain ⟨a, b, c, d1, e, f1⟩ := main 1 h
    exact ⟨Or.inl a, b, c, d1, e, f1⟩

theorem dottedSearch_shape {b d m y : List Char}
    (h : dottedSearch b = some (d, m, y)) :
    (d.length = 1 ∨ d.length = 2) ∧ (m.length = 1 ∨ m.length = 2) ∧
      y.length = 4 ∧ (∀ c ∈ d, c.isDigit = true) ∧
      (∀ c ∈ m, c.isDigit = true) ∧ (∀ c ∈ y, c.isDigit = true) := by
  induction b with
  | nil => simp [dottedSearch] at h
  | cons c cs ih =>
    rw [dottedSearch, orElse_eq_some_iff] at h
    rcases h with h | ⟨-, h⟩
    · exact dottedAt_shape h
    · exact ih h

theorem eightAt_shape {cs d m y : List Char} (h : eightAt cs = some (d, m, y)) :
    d.length = 2 ∧ m.length = 2 ∧ y.length = 4 ∧
      (∀ c ∈ d, c.isDigit = true) ∧ (∀ c ∈ m, c.isDigit = true) ∧
      (∀ c ∈ y, c.isDigit = true) := by
  unfold eightAt at h
  rw [Option.bind_eq_some] at h
  obtain ⟨⟨d1, r1⟩, h1, h⟩ := h
  rw [Option.bind_eq_some] at h
  obtain ⟨⟨m1, r2⟩, h2, h⟩ := h
  rw [Option.map_eq_some'] at h
  obtain ⟨⟨y1, r3⟩, h3, h4⟩ := h
  obtain ⟨ha1, ha2, -⟩ := takeDigits_spec 2 cs d1 r1 h1
  obtain ⟨hb1, hb2, -⟩ := takeDigits_spec 2 r1 m1 r2 h2
  obtain ⟨hc1, hc2, -⟩ := takeDigits_spec 4 r2 y1 r3 h3
  cases h4
  exact ⟨ha1, hb1, hc1, ha2, hb2, hc2⟩

theorem ddmmSearch_shape {b d m y : List Char}
    (h : ddmmSearch b = some (d, m, y)) :
    d.length = 2 ∧ m.length = 2 ∧ y.length = 4 ∧
      (∀ c ∈ d, c.isDigit = true) ∧ (∀ c ∈ m, c.isDigit = true) ∧
      (∀ c ∈ y, c.isDigit = true) := by
  induction b with
  | nil => simp [ddmmSearch] at h
  | cons c cs ih =>
    rw [ddmmSearch, orElse_eq_some_iff] at h
    rcases h with h | ⟨-, h⟩
    · exact eightAt_shape h
    · exact ih h

theorem zfill2_shape {m : List Char} (hl : m.length = 1 ∨ m.length = 2)
    (hd : ∀ c ∈ m, c.isDigit = true) :
    (zfill2 m).length = 2 ∧ ∀ c ∈ zfill2 m, c.isDigit = true := by
  unfold zfill2
  rcases hl with hl | hl
  · rw [if_neg (by omega)]
    refine ⟨by simp [hl], ?_⟩
    intro c hc
    rcases List.mem_append.mp hc with hc | hc
    · rw [List.eq_of_mem_replicate hc]; rfl
    · exact hd c hc
  · rw [if_pos (by omega)]
    exact ⟨hl, hd⟩

/-- The exact ISO shape YYYY-MM-DD: four digits, dash, two digits,
dash, two digits. -/
def isoShape : List Char → Bool
  | [y1, y2, y3, y4, s1, m1, m2, s2, d1, d2] =>
    y1.isDigit && y2.isDigit && y3.isDigit && y4.isDigit && s1 = '-' &&
    m1.isDigit && m2.isDigit && s2 = '-' && d1.isDigit && d2.isDigit
  | _ => false

theorem isoShape_of_parts {y m d : List Char}
    (hy : y.length = 4) (hm : m.length = 2) (hd : d.length = 2)
    (hyd : ∀ c ∈ y, c.isDigit = true) (hmd : ∀ c ∈ m, c.isDigit = true)
    (hdd : ∀ c ∈ d, c.isDigit = true) :
    isoShape (y ++ '-' :: (m ++ '-' :: d)) = true := by
  match y, hy with
  | [y1, y2, y3, y4], _ =>
    match m, hm with
    | [m1, m2], _ =>
      match d, hd with
      | [d1, d2], _ =>
        simp only [List.cons_append, List.nil_append, isoShape]
        simp only [List.mem_cons, List.not_mem_nil, or_false, forall_eq_or_imp,
          forall_eq] at hyd hmd hdd
        simp [hyd.1, hyd.2.1, hyd.2.2.1, hyd.2.2.2, hmd.1, hmd.2, hdd.1, hdd.2]

/-! Per-field case lemmas for parse_filename. -/

theorem parse_validity_date (f : List Char) :
    (parse_filename f).validity_date =
      if vwTrigger (upperL (basenameOf f)) then vwValidityDate (basenameOf f)
      else none := by
  by_cases h : vwTrigger (upperL (basenameOf f))
  · simp [parse_filename, h]
  · rw [if_neg h]
    simp only [parse_filename]
    rw [if_neg h]
    (repeat' split) <;> rfl

theorem parse_variant (f : List Char) :
    (parse_filename f).variant =
      if vwTrigger (upperL (basenameOf f)) then
        (if containsSub "T7".data (upperL (basenameOf f)) then some "T7".data
         else none)
      else none := by
  by_cases h : vwTrigger (upperL (basenameOf f))
  · simp [parse_filename, h]
  · rw [if_neg h]
    simp only [parse_filename]
    rw [if_neg h]
    (repeat' split) <;> rfl

theorem containsSub_correct (t s : List Char) :
    containsSub t s = true ↔ t <:+: s := by
  induction s with
  | nil =>
    simp [containsSub, List.isEmpty_iff]
  | cons c cs ih =>
    simp [containsSub, List.isPrefixOf_iff_prefix, ih, List.infix_cons_iff]

theorem vwValidityDate_dotted {b d m y : List Char}
    (h : dottedSearch b = some (d, m, y)) :
    vwValidityDate b = some (y ++ '-' :: (zfill2 m ++ '-' :: zfill2 d)) := by
  unfold vwValidityDate
  rw [h]

theorem vwValidityDate_ddmm {b : List Char} (h : dottedSearch b = none) :
    vwValidityDate b =
      (ddmmSearch b).map fun t => t.2.2 ++ '-' :: (t.2.1 ++ '-' :: t.1) := by
  unfold vwValidityDate
  rw [h]
  cases h8 : ddmmSearch b with
  | none => rfl
  | some t => obtain ⟨d, m, y⟩ := t; rfl

/-- C1: inside the Volkswagen branch the dotted-date parse determines
the validity date whenever it matches, even in the presence of an
eight-digit run, and the DDMMYYYY pattern is applied only when no
dotted date is present (generate_summary.py lines 153-164). -/
theorem C1_dotted_date_priority (f : List Char)
    (hvw : vwTrigger (upperL (basenameOf f)) = true) :
    ((ddmmSearch (basenameOf f)).isSome = true →
      ∀ d m y, dottedSearch (basenameOf f) = some (d, m, y) →
        (parse_filename f).validity_date =
          some (y ++ '-' :: (zfill2 m ++ '-' :: zfill2 d))) ∧
    (dottedSearch (basenameOf f) = none →
      (parse_filename f).validity_date =
        (ddmmSearch (basenameOf f)).map fun t =>
          t.2.2 ++ '-' :: (t.2.1 ++ '-' :: t.1)) := by
  have hv : (parse_filename f).validity_date = vwValidityDate (basenameOf f) := by
    rw [parse_validity_date, if_pos hvw]
  constructor
  · intro _ d m y hd
    rw [hv, vwValidityDate_dotted hd]
  · intro hd
    rw [hv, vwValidityDate_ddmm hd]

/-- Witness for C1 on a basename holding both a dotted date and an
eight-digit run: the dotted date wins. -/
theorem C1_dotted_date_priority_witness :
    (parse_filename "Multivan 9.9.2025 31122025.pdf".data).validity_date =
      some ("2025".data ++ '-' :: (zfill2 "9".data ++ '-' :: zfill2 "9".data)) :=
  (C1_dotted_date_priority "Multivan 9.9.2025 31122025.pdf".data
    (by decide)).1 (by decide) "9".data "9".data "2025".data (by decide)

/-- C2: parse_filename assigns the make of the first matching branch in
the fixed cascade order Volkswagen > Ford > Opel > Peugeot > Toyota >
Citroën-SpaceTourer > Citroën-prefix, and an unmatched basename yields
make Unknown with the stripped basename as model. -/
theorem C2_make_cascade_order (f : List Char) :
    (parse_filename f).make = specCascadeMake (basenameOf f) ∧
    (specCascadeMake (basenameOf f) = "Unknown" →
      (parse_filename f).make = "Unknown" ∧
      (parse_filename f).model = basenameOf f) := by
  by_cases h1 : vwTrigger (upperL (basenameOf f)) = true
  · exact ⟨by simp [parse_filename, specCascadeMake, makeRules, firstMatch, h1],
      fun hu => by simp [specCascadeMake, makeRules, firstMatch, h1] at hu⟩
  · by_cases h2 : (containsSub "FORD".data (upperL (basenameOf f)) ||
        containsSub "TRANSIT".data (upperL (basenameOf f))) = true
    · exact ⟨by simp [parse_filename, specCascadeMake, makeRules, firstMatch, h1, h2],
        fun hu => by simp [specCascadeMake, makeRules, firstMatch, h1, h2] at hu⟩
    · by_cases h3 : (containsSub "VIVARO".data (upperL (basenameOf f)) ||
          containsSub "ZAFIRA".data (upperL (basenameOf f))) = true
      · exact ⟨by simp [parse_filename, specCascadeMake, makeRules, firstMatch, h1, h2, h3],
          fun hu => by simp [specCascadeMake, makeRules, firstMatch, h1, h2, h3] at hu⟩
      · by_cases h4 : containsSub "EXPERT".data (upperL (basenameOf f)) = true
        · exact ⟨by simp [parse_filename, specCascadeMake, makeRules, firstMatch, h1, h2, h3, h4],
            fun hu => by simp [specCascadeMake, makeRules, firstMatch, h1, h2, h3, h4] at hu⟩
        · by_cases h5 : containsSub "PROACE".data (upperL (basenameOf f)) = true
          · exact ⟨by simp [parse_filename, specCascadeMake, makeRules, firstMatch, h1, h2, h3, h4, h5],
              fun hu => by simp [specCascadeMake, makeRules, firstMatch, h1, h2, h3, h4, h5] at hu⟩
          · by_cases h6 : (containsSub "SPACE".data (upperL (basenameOf f)) &&
                containsSub "TOURER".data (upperL (basenameOf f))) = true
            · exact ⟨by simp [parse_filename, specCascadeMake, makeRules, firstMatch, h1, h2, h3, h4, h5, h6],
                fun hu => by simp [specCascadeMake, makeRules, firstMatch, h1, h2, h3, h4, h5, h6] at hu⟩
            · by_cases h7 : "citroen".data.isPrefixOf (lowerL (basenameOf f)) = true
              · exact ⟨by simp [parse_filename, specCascadeMake, makeRules, firstMatch, h1, h2, h3, h4, h5, h6, h7],
                  fun hu => by simp [specCascadeMake, makeRules, firstMatch, h1, h2, h3, h4, h5, h6, h7] at hu⟩
              · refine ⟨by simp [parse_filename, specCascadeMake, makeRules, firstMatch, h1, h2, h3, h4, h5, h6, h7], fun _ => ⟨?_, ?_⟩⟩
                · simp [parse_filename, h1, h2, h3, h4, h5, h6, h7]
                · simp [parse_filename, h1, h2, h3, h4, h5, h6, h7]

/-- Witness for C2 at an unmatched basename. -/
theorem C2_make_cascade_order_witness :
    (parse_filename "Mazda5.pdf".data).make = "Unknown" ∧
    (parse_filename "Mazda5.pdf".data).model = basenameOf "Mazda5.pdf".data :=
  (C2_make_cascade_order "Mazda5.pdf".data).2 (by decide)

/-- C5: the concrete scenario from the spec, fully evaluated. -/
theorem C5_california_scenario :
    (parse_filename "Cennik_VW_California_T7_MJ2025_15.3.2025.pdf".data).make =
      "Volkswagen" ∧
    (parse_filename "Cennik_VW_California_T7_MJ2025_15.3.2025.pdf".data).model =
      "California".data ∧
    (parse_filename "Cennik_VW_California_T7_MJ2025_15.3.2025.pdf".data).variant =
      some "T7".data ∧
    (parse_filename "Cennik_VW_California_T7_MJ2025_15.3.2025.pdf".data).model_year =
      some "2025".data ∧
    (parse_filename "Cennik_VW_California_T7_MJ2025_15.3.2025.pdf".data).validity_date =
      some "2025-03-15".data := by
  decide

/-- C6: any basename containing CALIFORNIA or CT7 case-insensitively is
classified as a Volkswagen California. -/
theorem C6_california_tokens (f : List Char)
    (h : containsSub "CALIFORNIA".data (upperL (basenameOf f)) = true ∨
         containsSub "CT7".data (upperL (basenameOf f)) = true) :
    (parse_filename f).make = "Volkswagen" ∧
    (parse_filename f).model = "California".data := by
  have hvw : vwTrigger (upperL (basenameOf f)) = true := by
    unfold vwTrigger
    rcases h with h | h <;> simp [h]
  have hm : (containsSub "CALIFORNIA".data (upperL (basenameOf f)) ||
      containsSub "CT7".data (upperL (basenameOf f))) = true := by
    rcases h with h | h <;> simp [h]
  refine ⟨by simp [parse_filename, hvw], ?_⟩
  simp [parse_filename, hvw, vwModel, hm]

/-- Witness for C6. -/
theorem C6_california_tokens_witness :
    (parse_filename "nova_ct7_edition.pdf".data).make = "Volkswagen" ∧
    (parse_filename "nova_ct7_edition.pdf".data).model = "California".data :=
  C6_california_tokens "nova_ct7_edition.pdf".data (Or.inr (by decide))

/-- C7: every validity date parse_filename ever returns has the exact
shape YYYY-MM-DD. -/
theorem C7_validity_date_iso_shape (f s : List Char)
    (h : (parse_filename f).validity_date = some s) : isoShape s = true := by
  rw [parse_validity_date] at h
  by_cases hvw : vwTrigger (upperL (basenameOf f)) = true
  · rw [if_pos hvw] at h
    cases hd : dottedSearch (basenameOf f) with
    | some t =>
      obtain ⟨d, m, y⟩ := t
      rw [vwValidityDate_dotted hd, Option.some.injEq] at h
      subst h
      obtain ⟨hdl, hml, hyl, hdd, hmd, hyd⟩ := dottedSearch_shape hd
      obtain ⟨hm2, hmd2⟩ := zfill2_shape hml hmd
      obtain ⟨hd2, hdd2⟩ := zfill2_shape hdl hdd
      exact isoShape_of_parts hyl hm2 hd2 hyd hmd2 hdd2
    | none =>
      rw [vwValidityDate_ddmm hd] at h
      cases h8 : ddmmSearch (basenameOf f) with
      | none => rw [h8] at h; simp at h
      | some t =>
        obtain ⟨d, m, y⟩ := t
        rw [h8] at h
        simp only [Option.map_some', Option.some.injEq] at h
        subst h
        obtain ⟨hdl, hml, hyl, hdd, hmd, hyd⟩ := ddmmSearch_shape h8
        exact isoShape_of_parts hyl hml hdl hyd hmd hdd
  · rw [if_neg hvw] at h
    simp at h

/-- Witness for C7. -/
theorem C7_validity_date_iso_shape_witness : isoShape "2025-03-15".data = true :=
  C7_validity_date_iso_shape
    "Cennik_VW_California_T7_MJ2025_15.3.2025.pdf".data "2025-03-15".data
    (by decide)

/-- C10: inside the Volkswagen branch the variant is T7 exactly when the
uppercased basename contains T7, so entry through MT7 or CT7 always
carries variant T7. -/
theorem C10_variant_iff_T7 (f : List Char)
    (hvw : vwTrigger (upperL (basenameOf f)) = true) :
    (parse_filename f).variant =
      (if containsSub "T7".data (upperL (basenameOf f)) then some "T7".data
       else none) ∧
    ((containsSub "MT7".data (upperL (basenameOf f)) = true ∨
      containsSub "CT7".data (upperL (basenameOf f)) = true) →
      (parse_filename f).variant = some "T7".data) := by
  have h1 : (parse_filename f).variant =
      if containsSub "T7".data (upperL (basenameOf f)) then some "T7".data
      else none := by
    rw [parse_variant, if_pos hvw]
  refine ⟨h1, fun h => ?_⟩
  have ht : containsSub "T7".data (upperL (basenameOf f)) = true := by
    rw [containsSub_correct]
    rcases h with h | h
    · exact List.IsInfix.trans ⟨"M".data, [], by simp⟩
        ((containsSub_correct _ _).mp h)
    · exact List.IsInfix.trans ⟨"C".data, [], by simp⟩
        ((containsSub_correct _ _).mp h)
  rw [h1, if_pos ht]

/-- Witness for C10 at a basename entering the branch only through MT7. -/
theorem C10_variant_iff_T7_witness :
    (parse_filename "MT7.pdf".data).variant = some "T7".data :=
  (C10_variant_iff_T7 "MT7.pdf".data (by decide)).2 (Or.inl (by decide))

/-! Price extraction, modelling extract_prices_from_text
(generate_summary.py lines 37-67).  The character class [\d\s.] can
absorb the whitespace separating the amount from the currency sign, so
at a given start position the sign always sits right after the maximal
class run; the greedy group is that run with trailing whitespace
stripped, provided it still ends in a digit and has two characters. -/

/-- The class [\d\s.] of the price group. -/
def classChar (c : Char) : Bool := c.isDigit || pyIsSpace c || c = '.'

/-- Anchored match of (\d[\d\s.]*\d)\s*€ : returns the captured group
and the rest after the currency sign. -/
def matchPriceCore (cs : List Char) : Option (List Char × List Char) :=
  match cs with
  | [] => none
  | c :: _ =>
    if c.isDigit then
      let run := cs.takeWhile classChar
      match cs.drop run.length with
      | '€' :: rest2 =>
        let grp := (run.reverse.dropWhile pyIsSpace).reverse
        if 2 ≤ grp.length && grp.getLast?.any Char.isDigit then some (grp, rest2)
        else none
      | _ => none
    else none

/-- Case-insensitive literal match, as under re.IGNORECASE. -/
def matchCI : List Char → List Char → Option (List Char)
  | [], cs => some cs
  | _ :: _, [] => none
  | l :: ls, c :: cs => if c.toUpper = l.toUpper then matchCI ls cs else none

/-- Anchored match of the first price pattern
(\d[\d\s.]*\d)\s*€\s*bez\s*DPH (generate_summary.py line 47), with the
rest after the whole match for non-overlapping continuation. -/
def matchPrice1 (cs : List Char) : Option (List Char × List Char) :=
  (matchPriceCore cs).bind fun p =>
    (matchCI "bez".data (p.2.dropWhile pyIsSpace)).bind fun r2 =>
      (matchCI "DPH".data (r2.dropWhile pyIsSpace)).map fun r4 => (p.1, r4)

/-- The negative lookahead (?!\s*s\s*DPH) after the currency sign. -/
def lookaheadSDph (cs : List Char) : Bool :=
  match cs.dropWhile pyIsSpace with
  | c :: r2 => c.toUpper = 'S' && (matchCI "DPH".data (r2.dropWhile pyIsSpace)).isSome
  | [] => false

/-- Anchored match of the second price pattern
(\d[\d\s.]*\d)\s*€(?!\s*s\s*DPH) (generate_summary.py line 48); the
lookahead consumes nothing. -/
def matchPrice2 (cs : List Char) : Option (List Char × List Char) :=
  (matchPriceCore cs).bind fun p =>
    if lookaheadSDph p.2 then none else some p

/-- Fuelled engine behind re.finditer: try an anchored match at each
position, emitting the group and resuming after the match, else advance
one character.  Every successful match consumes at least one character
(matchPriceCore_shrink below), so fuel equal to the input length never
runs out; scanMatches_cons restates the definition fuel-free. -/
def scanMatchesAux (m : List Char → Option (List Char × List Char)) :
    Nat → List Char → List (List Char)
  | 0, _ => []
  | _ + 1, [] => []
  | fuel + 1, c :: cs =>
    match m (c :: cs) with
    | some p => p.1 :: scanMatchesAux m fuel p.2
    | none => scanMatchesAux m fuel cs

/-- re.finditer over the whole text, collecting captured groups. -/
def scanMatches (m : List Char → Option (List Char × List Char))
    (l : List Char) : List (List Char) :=
  scanMatchesAux m l.length l

theorem matchPriceCore_shrink {cs : List Char} {p : List Char × List Char}
    (h : matchPriceCore cs = some p) : p.2.length < cs.length := by
  match cs with
  | [] => simp [matchPriceCore] at h
  | c :: cs0 =>
    simp only [matchPriceCore] at h
    split at h
    · split at h
      next rest2 heq =>
        split at h
        · cases h
          show rest2.length < (c :: cs0).length
          have h1 : ((c :: cs0).drop ((c :: cs0).takeWhile classChar).length).length =
              rest2.length + 1 := by rw [heq]; rfl
          have h2 : ((c :: cs0).drop ((c :: cs0).takeWhile classChar).length).length ≤
              (c :: cs0).length := by
            rw [List.length_drop]; omega
          simp only [List.length_cons] at h2 ⊢
          omega
        · cases h
      next => cases h
    · cases h

theorem matchCI_length {lit cs r : List Char} (h : matchCI lit cs = some r) :
    r.length ≤ cs.length := by
  induction lit generalizing cs with
  | nil => unfold matchCI at h; cases h; exact le_rfl
  | cons l ls ih =>
    match cs with
    | [] => simp [matchCI] at h
    | c :: cs =>
      unfold matchCI at h
      split at h
      · exact le_trans (ih h) (by simp)
      · cases h

theorem dropWhile_length_le (p : Char → Bool) (l : List Char) :
    (l.dropWhile p).length ≤ l.length :=
  (List.dropWhile_sublist p).length_le

theorem matchPrice1_shrink {cs : List Char} {p : List Char × List Char}
    (h : matchPrice1 cs = some p) : p.2.length < cs.length := by
  unfold matchPrice1 at h
  rw [Option.bind_eq_some] at h
  obtain ⟨q, hq, h⟩ := h
  rw [Option.bind_eq_some] at h
  obtain ⟨r2, hr2, h⟩ := h
  rw [Option.map_eq_some'] at h
  obtain ⟨r4, hr4, h⟩ := h
  cases h
  have g1 := matchPriceCore_shrink hq
  have g2 := matchCI_length hr2
  have g3 := matchCI_length hr4
  have g4 := dropWhile_length_le pyIsSpace q.2
  have g5 := dropWhile_length_le pyIsSpace r2
  simp only []
  omega

theorem matchPrice2_shrink {cs : List Char} {p : List Char × List Char}
    (h : matchPrice2 cs = some p) : p.2.length < cs.length := by
  unfold matchPrice2 at h
  rw [Option.bind_eq_some] at h
  obtain ⟨q, hq, h⟩ := h
  split at h
  · cases h
  · cases h
    exact matchPriceCore_shrink hq

theorem scanMatchesAux_congr (m : List Char → Option (List Char × List Char))
    (hm : ∀ cs p, m cs = some p → p.2.length < cs.length) :
    ∀ (fuel fuel2 : Nat) (l : List Char), l.length ≤ fuel → l.length ≤ fuel2 →
      scanMatchesAux m fuel l = scanMatchesAux m fuel2 l := by
  intro fuel
  induction fuel with
  | zero =>
    intro fuel2 l h1 _
    have : l = [] := List.length_eq_zero.mp (Nat.le_zero.mp h1)
    subst this
    cases fuel2 <;> rfl
  | succ fuel ih =>
    intro fuel2 l h1 h2
    match l with
    | [] => cases fuel2 <;> rfl
    | c :: cs =>
      match fuel2 with
      | 0 => simp at h2
      | fuel2 + 1 =>
        simp only [scanMatchesAux]
        cases hmc : m (c :: cs) with
        | some p =>
          have hs := hm _ _ hmc
          simp only [List.length_cons] at h1 h2 hs
          show p.1 :: scanMatchesAux m fuel p.2 = p.1 :: scanMatchesAux m fuel2 p.2
          rw [ih fuel2 p.2 (by omega) (by omega)]
        | none =>
          simp only [List.length_cons] at h1 h2
          show scanMatchesAux m fuel cs = scanMatchesAux m fuel2 cs
          rw [ih fuel2 cs (by omega) (by omega)]

theorem scanMatches_cons (m : List Char → Option (List Char × List Char))
    (hm : ∀ cs p, m cs = some p → p.2.length < cs.length) (c : Char)
    (cs : List Char) :
    scanMatches m (c :: cs) =
      match m (c :: cs) with
      | some p => p.1 :: scanMatches m p.2
      | none => scanMatches m cs := by
  unfold scanMatches
  simp only [List.length_cons, scanMatchesAux]
  cases hmc : m (c :: cs) with
  | some p =>
    have hs := hm _ _ hmc
    simp only [List.length_cons] at hs
    show p.1 :: scanMatchesAux m cs.length p.2 =
      p.1 :: scanMatchesAux m p.2.length p.2
    exact congrArg _ (scanMatchesAux_congr m hm cs.length p.2.length p.2
      (by omega) le_rfl)
  | none => rfl

/-- Decimal value of a digit string, as int() computes it. -/
def natOfDigits (ds : List Char) : Nat :=
  ds.foldl (fun n c => 10 * n + (c.toNat - '0'.toNat)) 0

/-- int() applied to the captured group after removing the space and
period thousand separators; any remaining non-digit (for example a
tab matched by \s inside the group) raises ValueError, modelled as
none (generate_summary.py lines 54-63). -/
def pyIntOfGroup (g : List Char) : Option Nat :=
  let cleaned := g.filter fun c => !(c = ' ' || c = '.')
  if cleaned.isEmpty then none
  else if cleaned.all Char.isDigit then some (natOfDigits cleaned)
  else none

/-- One iteration of the collection loop: parse the group and keep it
only inside the plausibility bounds (generate_summary.py lines 57-63). -/
def priceStep (acc : List Nat) (g : List Char) : List Nat :=
  match pyIntOfGroup g with
  | some price => if 10000 ≤ price ∧ price ≤ 150000 then acc ++ [price] else acc
  | none => acc

/-- Shallow embedding of extract_prices_from_text: both finditer passes
in order, the bounded collection loop, then sorted(set(...)) as
deduplication followed by an ascending sort (any correct sort of the
deduplicated values yields the list of distinct prices in ascending
order, which is exactly what sorted over a set produces). -/
def extract_prices_from_text (text : List Char) : List Nat :=
  let gs := scanMatches matchPrice1 text ++ scanMatches matchPrice2 text
  let prices := gs.foldl priceStep []
  List.insertionSort (· ≤ ·) prices.dedup

theorem priceStep_mem {acc : List Nat} {g : List Char} {p : Nat}
    (h : p ∈ priceStep acc g) : p ∈ acc ∨ (10000 ≤ p ∧ p ≤ 150000) := by
  unfold priceStep at h
  split at h
  · split at h
    · rcases List.mem_append.mp h with h | h
      · exact Or.inl h
      · simp only [List.mem_singleton] at h
        subst h
        right
        assumption
    · exact Or.inl h
  · exact Or.inl h

theorem foldl_priceStep_bound (gs : List (List Char)) (acc : List Nat)
    (hacc : ∀ p ∈ acc, 10000 ≤ p ∧ p ≤ 150000) :
    ∀ p ∈ gs.foldl priceStep acc, 10000 ≤ p ∧ p ≤ 150000 := by
  induction gs generalizing acc with
  | nil => simpa using hacc
  | cons g gs ih =>
    intro p hp
    refine ih (priceStep acc g) ?_ p hp
    intro q hq
    rcases priceStep_mem hq with h | h
    · exact hacc q h
    · exact h

/-- C3: every extracted price lies between 10000 and 150000 inclusive,
and the returned sequence is ascending with no duplicates. -/
theorem C3_price_bounds_sorted_nodup (text : List Char) :
    (∀ p ∈ extract_prices_from_text text, 10000 ≤ p ∧ p ≤ 150000) ∧
    (extract_prices_from_text text).Sorted (· ≤ ·) ∧
    (extract_prices_from_text text).Nodup := by
  unfold extract_prices_from_text
  refine ⟨?_, ?_, ?_⟩
  · intro p hp
    rw [(List.perm_insertionSort _ _).mem_iff, List.mem_dedup] at hp
    exact foldl_priceStep_bound _ [] (by simp) p hp
  · exact List.sorted_insertionSort _ _
  · rw [(List.perm_insertionSort _ _).nodup_iff]
    exact List.nodup_dedup _

/-- Witness for C3 on a concrete text. -/
theorem C3_price_bounds_sorted_nodup_witness :
    10000 ≤ 25600 ∧ 25600 ≤ 150000 :=
  (C3_price_bounds_sorted_nodup "25 600 € bez DPH".data).1 25600 (by decide)

/-! Variant keyword extraction, modelling extract_variants_from_text
(generate_summary.py lines 70-89): four alternation patterns wrapped in
word boundaries, scanned with finditer, collected first-seen in
pattern-then-document order and capped at five. -/

/-- Word characters of the re escape \w (ASCII part). -/
def isWordChar (c : Char) : Bool := c.isAlpha || c.isDigit || c = '_'

/-- One token of a variant alternative: a case-insensitive literal, the
greedy gap \s*, or a one-character class such as [123]. -/
inductive VTok where
  | lit : List Char → VTok
  | ws : VTok
  | cls : List Char → VTok
deriving DecidableEq

/-- Case-insensitive literal match keeping the consumed original text. -/
def matchCIKeep : List Char → List Char → Option (List Char × List Char)
  | [], cs => some ([], cs)
  | _ :: _, [] => none
  | l :: ls, c :: cs =>
    if c.toUpper = l.toUpper then
      (matchCIKeep ls cs).map fun p => (c :: p.1, p.2)
    else none

/-- Match one token, returning consumed text and rest; the literal
following the gap \s* starts with a non-space letter, so the greedy
maximal gap is the only viable one. -/
def matchVTok : VTok → List Char → Option (List Char × List Char)
  | VTok.lit l, cs => matchCIKeep l cs
  | VTok.ws, cs => some (cs.takeWhile pyIsSpace, cs.dropWhile pyIsSpace)
  | VTok.cls _, [] => none
  | VTok.cls allowed, c :: cs => if allowed.contains c then some ([c], cs) else none

/-- Match a whole alternative, one token after the other. -/
def matchAlt : List VTok → List Char → Option (List Char × List Char)
  | [], cs => some ([], cs)
  | t :: ts, cs =>
    (matchVTok t cs).bind fun p =>
      (matchAlt ts p.2).map fun q => (p.1 ++ q.1, q.2)

/-- Anchored match of \b(alt1|alt2|...)\b : the boundary before holds
when the previous character is absent or not a word character (every
alternative starts with a letter), alternatives are tried left to
right, and each one is then checked for the boundary after (every
alternative ends with a letter or digit). -/
def matchVariantAt (alts : List (List VTok)) (prev : Option Char)
    (cs : List Char) : Option (List Char × List Char) :=
  if (match prev with | none => true | some p => !isWordChar p) then
    alts.findSome? fun alt =>
      (matchAlt alt cs).bind fun p =>
        match p.2 with
        | [] => some p
        | c :: _ => if isWordChar c then none else some p
  else none

/-- Fuelled finditer for the variant patterns, threading the previous
character for the boundary test; a match resumes after its last
character.  As with scanMatchesAux, every match consumes at least one
character, so fuel equal to the input length suffices
(scanVariants_cons below). -/
def scanVariantsAux (alts : List (List VTok)) :
    Nat → Option Char → List Char → List (List Char)
  | 0, _, _ => []
  | _ + 1, _, [] => []
  | fuel + 1, prev, c :: cs =>
    match matchVariantAt alts prev (c :: cs) with
    | some p => p.1 :: scanVariantsAux alts fuel p.1.getLast? p.2
    | none => scanVariantsAux alts fuel (some c) cs

/-- finditer over the whole text for one variant pattern. -/
def scanVariants (alts : List (List VTok)) (l : List Char) :
    List (List Char) :=
  scanVariantsAux alts l.length none l

/-- Trim levels: \b(Active|Comfort|Premium|Luxury|Sport|Base)\b. -/
def variantPat1 : List (List VTok) :=
  [[VTok.lit "Active".data], [VTok.lit "Comfort".data],
   [VTok.lit "Premium".data], [VTok.lit "Luxury".data],
   [VTok.lit "Sport".data], [VTok.lit "Base".data]]

/-- Special editions: \b(Beach|Coast|Ocean|Edition)\b. -/
def variantPat2 : List (List VTok) :=
  [[VTok.lit "Beach".data], [VTok.lit "Coast".data],
   [VTok.lit "Ocean".data], [VTok.lit "Edition".data]]

/-- Body and seating: \b(Van|Combi|Kombi|Furgon|Traveller|Crew\s*Van|Crew\s*Cab)\b. -/
def variantPat3 : List (List VTok) :=
  [[VTok.lit "Van".data], [VTok.lit "Combi".data], [VTok.lit "Kombi".data],
   [VTok.lit "Furgon".data], [VTok.lit "Traveller".data],
   [VTok.lit "Crew".data, VTok.ws, VTok.lit "Van".data],
   [VTok.lit "Crew".data, VTok.ws, VTok.lit "Cab".data]]

/-- Length codes: \b(Short|Long|Extra\s*Long|L[123]H[123])\b. -/
def variantPat4 : List (List VTok) :=
  [[VTok.lit "Short".data], [VTok.lit "Long".data],
   [VTok.lit "Extra".data, VTok.ws, VTok.lit "Long".data],
   [VTok.lit "L".data, VTok.cls "123".data, VTok.lit "H".data,
    VTok.cls "123".data]]

/-- Shallow embedding of extract_variants_from_text: the four patterns
in order, first-seen collection, capped at five. -/
def extract_variants_from_text (text : List Char) : List (List Char) :=
  let found := scanVariants variantPat1 text ++ scanVariants variantPat2 text ++
               scanVariants variantPat3 text ++ scanVariants variantPat4 text
  (found.foldl (fun acc v => if v ∈ acc then acc else acc ++ [v]) []).take 5

/-! Decimal rendering shared by the Python format specifier {:,} and
the JavaScript toLocaleString with the en-US locale: for the
non-negative integers produced here both group the digits in threes
with commas. -/

/-- The character of one decimal digit. -/
def digitChar (n : Nat) : Char := Char.ofNat ('0'.toNat + n)

/-- Fuelled most-significant-first decimal digits; the fuel n + 1 is
never exhausted because the digit count of n is at most n + 1. -/
def natDigitsCharsF : Nat → Nat → List Char
  | 0, _ => []
  | fuel + 1, n =>
    if n < 10 then [digitChar n]
    else natDigitsCharsF fuel (n / 10) ++ [digitChar (n % 10)]

/-- Decimal digits of a natural number, as str and repr render it. -/
def natDigitsChars (n : Nat) : List Char := natDigitsCharsF (n + 1) n

/-- Insert a comma after every third digit, working over the reversed
digit list. -/
def commaGroupRev : List Char → Nat → List Char
  | [], _ => []
  | c :: cs, k =>
    if k = 3 then ',' :: c :: commaGroupRev cs 1
    else c :: commaGroupRev cs (k + 1)

/-- The thousands-separated rendering shared by {:,} and
toLocaleString for natural numbers. -/
def fmtComma (n : Nat) : List Char :=
  (commaGroupRev (natDigitsChars n).reverse 0).reverse

/-- The content dictionary returned by parse_pdf_content. -/
structure ContentData where
  prices : List Nat
  variants : List (List Char)
  base_price : Option Nat
  price_range : Option (List Char)
deriving DecidableEq

/-- extract_pdf_text (generate_summary.py lines 21-34) abstracted over
the reading outcome: none models pypdf being unavailable or PdfReader
raising, both of which return the empty string; some t models a
successful extraction of text t. -/
def extract_pdf_text (readOutcome : Option (List Char)) : List Char :=
  match readOutcome with
  | none => []
  | some t => t

/-- The price_range field of parse_pdf_content (generate_summary.py
line 106): a range for two or more prices, a single figure for one,
null for none. -/
def price_range_str (prices : List Nat) : Option (List Char) :=
  match prices with
  | [] => none
  | [p] => some (fmtComma p ++ " €".data)
  | p :: q :: rest =>
    some (fmtComma p ++ " - ".data ++
      fmtComma ((q :: rest).getLast (List.cons_ne_nil q rest)) ++ " €".data)

/-- Shallow embedding of parse_pdf_content (generate_summary.py lines
92-107). -/
def parse_pdf_content (readOutcome : Option (List Char)) : ContentData :=
  let text := extract_pdf_text readOutcome
  let prices := extract_prices_from_text text
  let variants := extract_variants_from_text text
  ⟨prices, variants, prices.head?, price_range_str prices⟩

/-- C8: when the document cannot be opened or parsed, and likewise when
no text at all is extracted, parse_pdf_content returns empty prices and
variants and null base price and price range; being a total function it
raises nothing, so callers proceed with filename-only metadata. -/
theorem C8_graceful_failure :
    parse_pdf_content none = ⟨[], [], none, none⟩ ∧
    parse_pdf_content (some []) = ⟨[], [], none, none⟩ := by
  constructor <;> rfl

/-! Grouping and sorting, modelling the per-model sort of
generate_json_data (generate_summary.py lines 539-543) and its twin in
generate_html (lines 456-460). -/

/-- A full pipeline record: the parse_filename metadata merged with the
optional content fields, as the dictionaries reaching the renderers. -/
structure PriceRec where
  filename : List Char
  basename : List Char
  make : String
  model : List Char
  validity_date : Option (List Char)
  model_year : Option (List Char)
  variant : Option (List Char)
  prices : List Nat
  variants : List (List Char)
  base_price : Option Nat
  price_range : Option (List Char)
deriving DecidableEq

/-- Python string comparison: lexicographic on code points. -/
def strLt : List Char → List Char → Bool
  | [], [] => false
  | [], _ :: _ => true
  | _ :: _, [] => false
  | a :: as, b :: bs =>
    if a < b then true else if b < a then false else strLt as bs

/-- Python tuple comparison on the two-string sort key. -/
def keyLt (p q : List Char × List Char) : Bool :=
  strLt p.1 q.1 || (decide (p.1 = q.1) && strLt p.2 q.2)

/-- The sort key of the lambda at generate_summary.py lines 540-543:
validity date then model year, missing values replaced by the all-zero
sentinels. -/
def sortKey (r : PriceRec) : List Char × List Char :=
  (r.validity_date.getD "0000-00-00".data, r.model_year.getD "0000".data)

/-- The order used by list.sort(key=..., reverse=True): a record may
precede another exactly when its key is not smaller. -/
def descGE (a b : PriceRec) : Prop := keyLt (sortKey a) (sortKey b) = false

instance : DecidableRel descGE := fun a b =>
  inferInstanceAs (Decidable (keyLt (sortKey a) (sortKey b) = false))

/-- list.sort with reverse=True is a stable descending sort; under a
total preorder the stable sorted permutation is unique, and the
structural insertion sort here is stable, so it computes the same
list. -/
def sortPriceLists (l : List PriceRec) : List PriceRec :=
  List.insertionSort descGE l

theorem strLt_cons_iff (a b : Char) (as bs : List Char) :
    strLt (a :: as) (b :: bs) = true ↔
      a < b ∨ (a = b ∧ strLt as bs = true) := by
  show (if a < b then true else if b < a then false else strLt as bs) = true ↔ _
  rcases lt_trichotomy a b with h | h | h
  · rw [if_pos h]
    simp [h]
  · subst h
    rw [if_neg (lt_irrefl a), if_neg (lt_irrefl a)]
    simp
  · rw [if_neg (lt_asymm h), if_pos h]
    constructor
    · intro hh
      cases hh
    · rintro (hh | ⟨rfl, _⟩)
      · exact absurd hh (lt_asymm h)
      · exact absurd h (lt_irrefl _)

theorem strLt_irrefl : ∀ a : List Char, strLt a a = false
  | [] => rfl
  | c :: cs => by
    have := strLt_irrefl cs
    show (if c < c then true else if c < c then false else strLt cs cs) = false
    rw [if_neg (lt_irrefl c), if_neg (lt_irrefl c), this]

theorem strLt_trans :
    ∀ {a b c : List Char}, strLt a b = true → strLt b c = true →
      strLt a c = true := by
  intro a
  induction a with
  | nil =>
    intro b c h1 h2
    match b, c with
    | [], _ => exact absurd h1 (by simp [strLt])
    | _ :: _, [] => exact absurd h2 (by simp [strLt])
    | _ :: _, _ :: _ => rfl
  | cons a1 as ih =>
    intro b c h1 h2
    match b, c with
    | [], _ => exact absurd h1 (by simp [strLt])
    | _ :: _, [] => exact absurd h2 (by simp [strLt])
    | b1 :: bs, c1 :: cs =>
      rw [strLt_cons_iff] at h1 h2 ⊢
      rcases h1 with h1 | ⟨rfl, h1⟩
      · rcases h2 with h2 | ⟨rfl, h2⟩
        · exact Or.inl (lt_trans h1 h2)
        · exact Or.inl h1
      · rcases h2 with h2 | ⟨rfl, h2⟩
        · exact Or.inl h2
        · exact Or.inr ⟨rfl, ih h1 h2⟩

theorem strLt_eq_of_not :
    ∀ {a b : List Char}, strLt a b = false → strLt b a = false → a = b := by
  intro a
  induction a with
  | nil =>
    intro b h1 _
    match b with
    | [] => rfl
    | _ :: _ => exact absurd h1 (by simp [strLt])
  | cons a1 as ih =>
    intro b h1 h2
    match b with
    | [] => exact absurd h2 (by simp [strLt])
    | b1 :: bs =>
      rw [Bool.eq_false_iff] at h1 h2
      rw [Ne, strLt_cons_iff] at h1 h2
      push_neg at h1 h2
      have hab : a1 = b1 := by
        rcases lt_trichotomy a1 b1 with h | h | h
        · exact absurd h (not_lt.mpr h1.1)
        · exact h
        · exact absurd h (not_lt.mpr h2.1)
      subst hab
      have e1 : strLt as bs = false := by
        have := h1.2 rfl
        exact Bool.eq_false_iff.mpr this
      have e2 : strLt bs as = false := by
        have := h2.2 rfl
        exact Bool.eq_false_iff.mpr this
      rw [ih e1 e2]

theorem keyLt_trans {p q r : List Char × List Char}
    (h1 : keyLt p q = true) (h2 : keyLt q r = true) : keyLt p r = true := by
  simp only [keyLt, Bool.or_eq_true, Bool.and_eq_true, decide_eq_true_eq] at h1 h2 ⊢
  rcases h1 with h1 | ⟨e1, h1⟩
  · rcases h2 with h2 | ⟨e2, h2⟩
    · exact Or.inl (strLt_trans h1 h2)
    · exact Or.inl (e2 ▸ h1)
  · rcases h2 with h2 | ⟨e2, h2⟩
    · exact Or.inl (e1 ▸ h2)
    · exact Or.inr ⟨e1.trans e2, strLt_trans h1 h2⟩

theorem keyLt_irrefl (p : List Char × List Char) : keyLt p p = false := by
  simp [keyLt, strLt_irrefl]

theorem keyLt_not_both {p q : List Char × List Char} (h1 : keyLt p q = true)
    (h2 : keyLt q p = true) : False := by
  have := keyLt_trans h1 h2
  rw [keyLt_irrefl] at this
  cases this

theorem keyLt_eq_of_not {p q : List Char × List Char}
    (h1 : keyLt p q = false) (h2 : keyLt q p = false) : p = q := by
  simp only [keyLt, Bool.or_eq_false_iff, Bool.and_eq_false_iff] at h1 h2
  have e1 : p.1 = q.1 := strLt_eq_of_not h1.1 h2.1
  have e2 : p.2 = q.2 := by
    rcases h1.2 with h | h
    · rw [decide_eq_false_iff_not] at h
      exact absurd e1 h
    · rcases h2.2 with h' | h'
      · rw [decide_eq_false_iff_not] at h'
        exact absurd e1.symm h'
      · exact strLt_eq_of_not h h'
  exact Prod.ext e1 e2

instance : IsTotal PriceRec descGE :=
  ⟨fun a b => by
    unfold descGE
    by_cases h : keyLt (sortKey a) (sortKey b) = true
    · right
      by_cases h2 : keyLt (sortKey b) (sortKey a) = true
      · exact absurd (keyLt_not_both h h2) id
      · exact Bool.eq_false_iff.mpr h2
    · left
      exact Bool.eq_false_iff.mpr h⟩

instance : IsTrans PriceRec descGE :=
  ⟨fun a b c h1 h2 => by
    unfold descGE at h1 h2 ⊢
    by_contra hc
    have hc' : keyLt (sortKey a) (sortKey c) = true := by
      cases h : keyLt (sortKey a) (sortKey c)
      · exact absurd h hc
      · rfl
    rcases lt_tri : keyLt (sortKey b) (sortKey a) with _ | _
    · have : sortKey a = sortKey b := keyLt_eq_of_not h1 lt_tri
      rw [this] at hc'
      rw [hc'] at h2
      cases h2
    · have := keyLt_trans lt_tri hc'
      rw [this] at h2
      cases h2⟩

/-- A record with no validity date and no model year: exactly what
parse_filename produces for the basename Multivan, with contentless
fields. -/
def recNullDate : PriceRec :=
  ⟨"cenniky/Multivan.pdf".data, "Multivan".data, "Volkswagen",
   "Multivan".data, none, none, none, [], [], none, none⟩

/-- A record whose validity date equals the sort sentinel: exactly what
parse_filename produces for the basename Multivan_00000000, whose
eight-digit run renders as 0000-00-00. -/
def recSentinelDate : PriceRec :=
  ⟨"cenniky/Multivan_00000000.pdf".data, "Multivan_00000000".data,
   "Volkswagen", "Multivan".data, some "0000-00-00".data, none, none,
   [], [], none, none⟩

/-- A record with an ordinary validity date. -/
def recDatedMarch : PriceRec :=
  ⟨"cenniky/Multivan 15.3.2025.pdf".data, "Multivan 15.3.2025".data,
   "Volkswagen", "Multivan".data, some "2025-03-15".data, none, none,
   [], [], none, none⟩

/-- Counterexample to C4 as stated: with a reachable record whose
validity date equals the sentinel 0000-00-00, the stable descending
sort keeps the dateless record first, so a null-date record precedes a
dated one. -/
theorem C4_nulls_last_counterexample :
    ¬ (sortPriceLists [recNullDate, recSentinelDate]).Pairwise
        (fun a b => a.validity_date = none → b.validity_date = none) := by
  decide

/-- C4 amended: sorting a model group is idempotent, and dateless
records sort after all dated records provided every present validity
date is lexicographically above the sentinel 0000-00-00 — true of every
real ISO date, whose month field is at least 01, but violated by the
reachable date 0000-00-00. -/
theorem C4_sort_idempotent_nulls_last (l : List PriceRec) :
    sortPriceLists (sortPriceLists l) = sortPriceLists l ∧
    ((∀ r ∈ l, r.validity_date.all
        (fun s => strLt "0000-00-00".data s) = true) →
      (sortPriceLists l).Pairwise
        (fun a b => a.validity_date = none → b.validity_date = none)) := by
  constructor
  · exact List.Sorted.insertionSort_eq (List.sorted_insertionSort descGE l)
  · intro hdates
    have hsorted : (sortPriceLists l).Pairwise descGE :=
      List.sorted_insertionSort descGE l
    refine hsorted.imp_of_mem ?_
    intro a b ha hb hge hnull
    cases hb' : b.validity_date with
    | none => rfl
    | some s =>
      have hbmem : b ∈ l := (List.perm_insertionSort descGE l).subset hb
      have hs : strLt "0000-00-00".data s = true := by
        have := hdates b hbmem
        rw [hb'] at this
        simpa using this
      unfold descGE at hge
      rw [Bool.eq_false_iff] at hge
      exact absurd (by
        simp only [keyLt, sortKey, hnull, hb', Option.getD_some,
          Option.getD_none, Bool.or_eq_true]
        exact Or.inl hs) hge

/-- Witness for the conditional part of C4 on a list whose dates are
all above the sentinel. -/
theorem C4_sort_idempotent_nulls_last_witness :
    (sortPriceLists [recNullDate, recDatedMarch]).Pairwise
      (fun a b => a.validity_date = none → b.validity_date = none) :=
  (C4_sort_idempotent_nulls_last [recNullDate, recDatedMarch]).2 (by decide)

/-! Rendering, modelling the per-record badges of the server-rendered
page (generate_html, generate_summary.py lines 471-490) and of the
client shell (renderPriceLists and its helpers, lines 829-889), with
the JSON field mapping of generate_json_data (lines 550-561) in
between. -/

/-- CPython strptime month field 1[0-2]|0[1-9]|[1-9]: the candidate
values in alternation order, with the unconsumed rest. -/
def monthCands (cs : List Char) : List (Nat × List Char) :=
  (match cs with
   | '1' :: c :: r =>
     if '0' ≤ c && c ≤ '2' then [(10 + (c.toNat - '0'.toNat), r)] else []
   | _ => []) ++
  (match cs with
   | '0' :: c :: r =>
     if '1' ≤ c && c ≤ '9' then [(c.toNat - '0'.toNat, r)] else []
   | _ => []) ++
  (match cs with
   | c :: r => if '1' ≤ c && c ≤ '9' then [(c.toNat - '0'.toNat, r)] else []
   | _ => [])

/-- CPython strptime day field 3[01]|[12]\d|0[1-9]|[1-9]. -/
def dayCands (cs : List Char) : List (Nat × List Char) :=
  (match cs with
   | '3' :: c :: r =>
     if c = '0' || c = '1' then [(30 + (c.toNat - '0'.toNat), r)] else []
   | _ => []) ++
  (match cs with
   | c1 :: c2 :: r =>
     if (c1 = '1' || c1 = '2') && c2.isDigit then
       [((c1.toNat - '0'.toNat) * 10 + (c2.toNat - '0'.toNat), r)]
     else []
   | _ => []) ++
  (match cs with
   | '0' :: c :: r =>
     if '1' ≤ c && c ≤ '9' then [(c.toNat - '0'.toNat, r)] else []
   | _ => []) ++
  (match cs with
   | c :: r => if '1' ≤ c && c ≤ '9' then [(c.toNat - '0'.toNat, r)] else []
   | _ => [])

/-- datetime.strptime with format %Y-%m-%d, the regex phase: a
four-digit year, dashes, the month and day fields with backtracking in
alternation order, and no unconverted data left. -/
def pyStrptimeYmd (s : List Char) : Option (Nat × Nat × Nat) :=
  (takeDigits 4 s).bind fun p =>
    (expectCh '-' p.2).bind fun r2 =>
      (monthCands r2).findSome? fun mc =>
        (expectCh '-' mc.2).bind fun r3 =>
          (dayCands r3).findSome? fun dc =>
            if dc.2.isEmpty then some (natOfDigits p.1, mc.1, dc.1) else none

/-- The Gregorian leap rule used by datetime. -/
def isLeapYear (y : Nat) : Bool := y % 4 = 0 && (y % 100 ≠ 0 || y % 400 = 0)

/-- Days in a month, as datetime validates them. -/
def daysInMonth (y m : Nat) : Nat :=
  if m = 2 then (if isLeapYear y then 29 else 28)
  else if m = 4 || m = 6 || m = 9 || m = 11 then 30
  else 31

/-- datetime.strptime including the datetime constructor checks:
MINYEAR ≤ year ≤ MAXYEAR, month in range, day within the month. -/
def pyStrptimeYmdValid (s : List Char) : Option (Nat × Nat × Nat) :=
  (pyStrptimeYmd s).bind fun t =>
    if 1 ≤ t.1 ∧ t.1 ≤ 9999 ∧ 1 ≤ t.2.1 ∧ t.2.1 ≤ 12 ∧ 1 ≤ t.2.2 ∧
        t.2.2 ≤ daysInMonth t.1 t.2.1 then some t else none

/-- strftime %d.%m.%Y on glibc: day and month zero-padded to two
digits, the year unpadded. -/
def pyStrftimeDmY (y m d : Nat) : List Char :=
  zfill2 (natDigitsChars d) ++ '.' ::
    (zfill2 (natDigitsChars m) ++ '.' :: natDigitsChars y)

/-- One record of the stable external JSON schema
(generate_summary.py lines 551-561). -/
structure JsonRecord where
  filename : List Char
  basename : List Char
  basePrice : Option Nat
  priceRange : Option (List Char)
  modelYear : Option (List Char)
  variant : Option (List Char)
  validityDate : Option (List Char)
  prices : List Nat
  variants : List (List Char)
deriving DecidableEq

/-- The field mapping generate_json_data applies to each record. -/
def toJsonRecord (r : PriceRec) : JsonRecord :=
  ⟨pathName r.filename, r.basename, r.base_price, r.price_range,
   r.model_year, r.variant, r.validity_date, r.prices, r.variants⟩

/-- The four badge slots of a rendered record. -/
inductive BadgeKind where
  | price : BadgeKind
  | year : BadgeKind
  | variant : BadgeKind
  | date : BadgeKind
deriving DecidableEq

/-- Python truthiness of an optional string field. -/
def truthyStr : Option (List Char) → Bool
  | none => false
  | some s => !s.isEmpty

/-- Python and JavaScript truthiness of an optional number field. -/
def truthyNat : Option Nat → Bool
  | none => false
  | some n => decide (n ≠ 0)

/-- The badges one record contributes in the server-rendered HTML
(generate_summary.py lines 471-490): a price badge from base_price or
else price_range, then model year, variant, and validity date, the
date reformatted through strptime and strftime with the raw string as
fallback (and no Valid from prefix on the fallback). -/
def serverBadges (pl : PriceRec) : List (BadgeKind × List Char) :=
  (if truthyNat pl.base_price then
    [(BadgeKind.price,
      "From ".data ++ fmtComma (pl.base_price.getD 0) ++ " €".data)]
   else if truthyStr pl.price_range then
    [(BadgeKind.price, pl.price_range.getD [])]
   else []) ++
  (if truthyStr pl.model_year then
    [(BadgeKind.year, "MY ".data ++ pl.model_year.getD [])]
   else []) ++
  (if truthyStr pl.variant then [(BadgeKind.variant, pl.variant.getD [])]
   else []) ++
  (if truthyStr pl.validity_date then
    (match pyStrptimeYmdValid (pl.validity_date.getD []) with
     | some t =>
       [(BadgeKind.date, "Valid from ".data ++ pyStrftimeDmY t.1 t.2.1 t.2.2)]
     | none => [(BadgeKind.date, pl.validity_date.getD [])])
   else [])

/-- JavaScript String.prototype.split on a dash. -/
def splitOnDash : List Char → List (List Char)
  | [] => [[]]
  | c :: cs =>
    if c = '-' then [] :: splitOnDash cs
    else
      match splitOnDash cs with
      | p :: ps => (c :: p) :: ps
      | [] => [[c]]

/-- The client formatDate (generate_summary.py lines 835-843):
destructure the dash-split parts as [year, month, day] and interpolate
day.month.year; a missing piece interpolates as the text undefined. -/
def jsFormatDate (s : List Char) : List Char :=
  if s.isEmpty then []
  else
    let parts := splitOnDash s
    let year := (parts[0]?).getD "undefined".data
    let month := (parts[1]?).getD "undefined".data
    let day := (parts[2]?).getD "undefined".data
    day ++ '.' :: (month ++ '.' :: year)

/-- The badges one record contributes in the client shell
(generate_summary.py lines 869-885): identical slots, but the date is
always the Valid from prefix around the split-based reformatting. -/
def clientBadges (pl : JsonRecord) : List (BadgeKind × List Char) :=
  (if truthyNat pl.basePrice then
    [(BadgeKind.price,
      "From ".data ++ fmtComma (pl.basePrice.getD 0) ++ " €".data)]
   else if truthyStr pl.priceRange then
    [(BadgeKind.price, pl.priceRange.getD [])]
   else []) ++
  (if truthyStr pl.modelYear then
    [(BadgeKind.year, "MY ".data ++ pl.modelYear.getD [])]
   else []) ++
  (if truthyStr pl.variant then [(BadgeKind.variant, pl.variant.getD [])]
   else []) ++
  (if truthyStr pl.validityDate then
    [(BadgeKind.date,
      "Valid from ".data ++ jsFormatDate (pl.validityDate.getD []))]
   else [])

/-- A reachable record whose stored validity date 2025-99-99 (from the
filename token 99.99.2025) fails strptime: the server badge falls back
to the raw string while the client splits and reorders it. -/
def recBadDate : PriceRec :=
  ⟨"cenniky/Multivan 99.99.2025.pdf".data, "Multivan 99.99.2025".data,
   "Volkswagen", "Multivan".data, some "2025-99-99".data, none, none,
   [], [], none, none⟩

/-- Counterexample to C9 as stated: on a record with a reachable but
calendar-invalid validity date the two rendering modes disagree. -/
theorem C9_badges_counterexample :
    serverBadges recBadDate ≠ clientBadges (toJsonRecord recBadDate) := by
  decide

theorem digitChar_isDigit (n : Nat) (h : n < 10) :
    (digitChar n).isDigit = true := by
  interval_cases n <;> decide

theorem natDigitsCharsF_digits :
    ∀ (fuel n : Nat), ∀ c ∈ natDigitsCharsF fuel n, c.isDigit = true := by
  intro fuel
  induction fuel with
  | zero =>
    intro n c hc
    simp [natDigitsCharsF] at hc
  | succ fuel ih =>
    intro n c hc
    unfold natDigitsCharsF at hc
    split at hc
    next h10 =>
      simp only [List.mem_singleton] at hc
      subst hc
      exact digitChar_isDigit n h10
    next =>
      rcases List.mem_append.mp hc with hc | hc
      · exact ih _ _ hc
      · simp only [List.mem_singleton] at hc
        subst hc
        exact digitChar_isDigit _ (Nat.mod_lt _ (by omega))

theorem natDigitsChars_ne_nil (n : Nat) : natDigitsChars n ≠ [] := by
  unfold natDigitsChars natDigitsCharsF
  split
  · simp
  · simp

theorem natDigitsChars_no_dash (n : Nat) :
    ∀ c ∈ natDigitsChars n, c ≠ '-' := by
  intro c hc he
  have hd := natDigitsCharsF_digits (n + 1) n c hc
  subst he
  exact absurd hd (by decide)

theorem zfill2_no_dash (s : List Char) (hs : ∀ c ∈ s, c ≠ '-') :
    ∀ c ∈ zfill2 s, c ≠ '-' := by
  intro c hc
  unfold zfill2 at hc
  split at hc
  · exact hs c hc
  · rcases List.mem_append.mp hc with hc | hc
    · rw [List.eq_of_mem_replicate hc]
      decide
    · exact hs c hc

theorem splitOnDash_dashfree (a : List Char) (ha : ∀ c ∈ a, c ≠ '-') :
    splitOnDash a = [a] := by
  induction a with
  | nil => rfl
  | cons x xs ih =>
    have hx : x ≠ '-' := ha x (by simp)
    show splitOnDash (x :: xs) = [x :: xs]
    unfold splitOnDash
    rw [if_neg hx, ih (fun c hc => ha c (by simp [hc]))]

theorem splitOnDash_append (a : List Char) (ha : ∀ c ∈ a, c ≠ '-')
    (r : List Char) :
    splitOnDash (a ++ '-' :: r) = a :: splitOnDash r := by
  induction a with
  | nil =>
    show splitOnDash ('-' :: r) = [] :: splitOnDash r
    simp only [splitOnDash]
    rw [if_pos trivial]
  | cons x xs ih =>
    have hx : x ≠ '-' := ha x (by simp)
    show splitOnDash (x :: (xs ++ '-' :: r)) = (x :: xs) :: splitOnDash r
    simp only [splitOnDash]
    rw [if_neg hx, ih (fun c hc => ha c (by simp [hc]))]

/-- The zero-padded ISO rendering of numeric date components, the shape
parse_filename stores: year digits, dash, two-digit month, dash,
two-digit day. -/
def isoPad (y m d : Nat) : List Char :=
  natDigitsChars y ++ '-' ::
    (zfill2 (natDigitsChars m) ++ '-' :: zfill2 (natDigitsChars d))

theorem splitOnDash_isoPad (y m d : Nat) :
    splitOnDash (isoPad y m d) =
      [natDigitsChars y, zfill2 (natDigitsChars m),
       zfill2 (natDigitsChars d)] := by
  unfold isoPad
  rw [splitOnDash_append _ (natDigitsChars_no_dash y),
    splitOnDash_append _ (zfill2_no_dash _ (natDigitsChars_no_dash m)),
    splitOnDash_dashfree _ (zfill2_no_dash _ (natDigitsChars_no_dash d))]

theorem isoPad_ne_nil (y m d : Nat) : (isoPad y m d).isEmpty = false := by
  unfold isoPad
  rw [List.isEmpty_eq_false_iff_exists_mem]
  rcases List.exists_mem_of_ne_nil _ (natDigitsChars_ne_nil y) with ⟨c, hc⟩
  exact ⟨c, List.mem_append.mpr (Or.inl hc)⟩

theorem jsFormatDate_isoPad (y m d : Nat) :
    jsFormatDate (isoPad y m d) =
      zfill2 (natDigitsChars d) ++ '.' ::
        (zfill2 (natDigitsChars m) ++ '.' :: natDigitsChars y) := by
  unfold jsFormatDate
  rw [if_neg (by rw [isoPad_ne_nil]; simp)]
  rw [splitOnDash_isoPad]
  rfl

/-- C9 amended: for every record whose validity date, when present, is
the zero-padded ISO rendering of components that strptime parses back
(a calendar-valid date), the client shell renders exactly the badges of
the server-rendered mode; the raw-fallback dates are the only
divergence. -/
theorem C9_badges_equal_amended (r : PriceRec)
    (h : r.validity_date = none ∨
      ∃ y m d, r.validity_date = some (isoPad y m d) ∧
        pyStrptimeYmdValid (isoPad y m d) = some (y, m, d)) :
    serverBadges r = clientBadges (toJsonRecord r) := by
  have hdate :
      (if truthyStr r.validity_date then
        (match pyStrptimeYmdValid (r.validity_date.getD []) with
         | some t =>
           [(BadgeKind.date,
             "Valid from ".data ++ pyStrftimeDmY t.1 t.2.1 t.2.2)]
         | none => [(BadgeKind.date, r.validity_date.getD [])])
       else []) =
      (if truthyStr r.validity_date then
        [(BadgeKind.date,
          "Valid from ".data ++ jsFormatDate (r.validity_date.getD []))]
       else []) := by
    rcases h with hnone | ⟨y, m, d, hvd, hparse⟩
    · rw [hnone]
      rfl
    · rw [hvd]
      have htr : truthyStr (some (isoPad y m d)) = true := by
        show (!(isoPad y m d).isEmpty) = true
        rw [isoPad_ne_nil]
        rfl
      rw [if_pos htr, if_pos htr, Option.getD_some, hparse,
        jsFormatDate_isoPad]
      rfl
  simp only [serverBadges, clientBadges, toJsonRecord]
  exact congrArg₂ _ rfl hdate

/-- A record carrying the well-formed date 2025-03-15 in padded form. -/
def recDatedIso : PriceRec :=
  ⟨"cenniky/Multivan 15.3.2025.pdf".data, "Multivan 15.3.2025".data,
   "Volkswagen", "Multivan".data, some (isoPad 2025 3 15), none, none,
   [], [], none, none⟩

/-- Witness for the amended C9 at a record with a calendar-valid date. -/
theorem C9_badges_equal_amended_witness :
    serverBadges recDatedIso = clientBadges (toJsonRecord recDatedIso) :=
  C9_badges_equal_amended recDatedIso
    (Or.inr ⟨2025, 3, 15, rfl, by decide⟩)

end Van
